import Mathlib

/-!
# Verification of the pynefs ONC RPC core (`pynefs/rpc.py`)

A shallow embedding in Lean 4 of the transport framing, client call/reply
correlation, and server dispatch machinery of `pynefs/rpc.py`, together with
theorems settling the spec's claims about it.

Bytes are modelled as `Nat` (values below 256 in every stream the code
produces); byte strings as `List Nat`.  Python dicts keyed by ints are
modelled as association lists with Python's mutation semantics
(`dictSet` = `d[k] = v`, `dictPop` = `d.pop(k, None)`).
-/

set_option maxRecDepth 8000

namespace PyNefs

/-! ## Association lists with Python-dict semantics -/

/-- Python `d[k] = v`: replace the binding for `k` in place, or append a new one. -/
def dictSet (k : Nat) (v : α) : List (Nat × α) → List (Nat × α)
  | [] => [(k, v)]
  | p :: ps => if p.1 = k then (k, v) :: ps else p :: dictSet k v ps

/-- Python `d.get(k)`: first binding for `k`, if any. -/
def alookup (k : Nat) : List (Nat × α) → Option α
  | [] => none
  | p :: ps => if p.1 = k then some p.2 else alookup k ps

/-- Removal of `k`'s binding, as done by `d.pop(k, ...)` when `k` is present. -/
def aerase (k : Nat) : List (Nat × α) → List (Nat × α)
  | [] => []
  | p :: ps => if p.1 = k then ps else p :: aerase k ps

/-- Python `d.pop(k, None)`: the popped value (if any) and the remaining dict. -/
def dictPop (k : Nat) (d : List (Nat × α)) : Option α × List (Nat × α) :=
  match alookup k d with
  | none => (none, d)
  | some v => (some v, aerase k d)

theorem alookup_dictSet_self (k : Nat) (v : α) (d : List (Nat × α)) :
    alookup k (dictSet k v d) = some v := by
  induction d with
  | nil => simp [dictSet, alookup]
  | cons p ps ih =>
    by_cases h : p.1 = k
    · simp [dictSet, alookup, h]
    · simp [dictSet, alookup, h, ih]

theorem alookup_dictSet_ne (k k' : Nat) (v : α) (d : List (Nat × α)) (h : k' ≠ k) :
    alookup k' (dictSet k v d) = alookup k' d := by
  induction d with
  | nil => simp [dictSet, alookup, Ne.symm h]
  | cons p ps ih =>
    by_cases hp : p.1 = k
    · simp [dictSet, alookup, hp, Ne.symm h]
    · by_cases hp' : p.1 = k' <;> simp [dictSet, alookup, hp, hp', ih, h, Ne.symm h]

theorem alookup_aerase_ne (k k' : Nat) (d : List (Nat × α)) (h : k' ≠ k) :
    alookup k' (aerase k d) = alookup k' d := by
  induction d with
  | nil => simp [aerase]
  | cons p ps ih =>
    by_cases hp : p.1 = k
    · have hp' : p.1 ≠ k' := by rw [hp]; exact Ne.symm h
      simp [aerase, alookup, hp, hp', Ne.symm h]
    · by_cases hp' : p.1 = k' <;> simp [aerase, alookup, hp, hp', ih, h, Ne.symm h]

/-- Keys of an association list. -/
def keys (d : List (Nat × α)) : List Nat := d.map Prod.fst

theorem alookup_eq_none_of_not_mem_keys {k : Nat} {d : List (Nat × α)}
    (h : k ∉ keys d) : alookup k d = none := by
  induction d with
  | nil => rfl
  | cons p ps ih =>
    simp only [keys, List.map_cons, List.mem_cons, not_or] at h
    simp only [alookup, if_neg (Ne.symm h.1)]
    exact ih (by simpa [keys] using h.2)

theorem mem_keys_of_alookup_eq_some {k : Nat} {d : List (Nat × α)} {v : α}
    (h : alookup k d = some v) : k ∈ keys d := by
  induction d with
  | nil => simp [alookup] at h
  | cons p ps ih =>
    by_cases hp : p.1 = k
    · simp [keys, hp.symm]
    · simp only [alookup, if_neg hp] at h
      simp [keys, List.mem_cons]
      right
      simpa [keys] using ih h

theorem keys_dictSet_of_not_mem (k : Nat) (v : α) (d : List (Nat × α))
    (h : k ∉ keys d) : keys (dictSet k v d) = keys d ++ [k] := by
  induction d with
  | nil => simp [dictSet, keys]
  | cons p ps ih =>
    simp only [keys, List.map_cons, List.mem_cons, not_or] at h
    simp only [dictSet, if_neg (Ne.symm h.1), keys, List.map_cons]
    rw [show List.map Prod.fst (dictSet k v ps) = keys (dictSet k v ps) from rfl,
      ih (by simpa [keys] using h.2)]
    rfl

theorem keys_dictSet_of_mem (k : Nat) (v : α) (d : List (Nat × α))
    (h : k ∈ keys d) : keys (dictSet k v d) = keys d := by
  induction d with
  | nil => simp [keys] at h
  | cons p ps ih =>
    by_cases hp : p.1 = k
    · simp [dictSet, hp, keys]
    · have h' : k ∈ keys ps := by
        rcases (by simpa [keys] using h : k = p.1 ∨ k ∈ keys ps) with h1 | h2
        · exact absurd h1.symm hp
        · exact h2
      simp only [dictSet, if_neg hp, keys, List.map_cons]
      rw [show List.map Prod.fst (dictSet k v ps) = keys (dictSet k v ps) from rfl, ih h']
      rfl

theorem keys_nodup_dictSet (k : Nat) (v : α) (d : List (Nat × α))
    (hd : (keys d).Nodup) : (keys (dictSet k v d)).Nodup := by
  by_cases hk : k ∈ keys d
  · rw [keys_dictSet_of_mem k v d hk]; exact hd
  · rw [keys_dictSet_of_not_mem k v d hk]
    simpa [List.nodup_append] using ⟨hd, fun h => hk h⟩

/-! ## Record-marking framing (`TCPTransport`)

The byte stream is a `List Nat`; `readexactly n` is `take`/`drop` with a length
check, and end-of-stream is the end of the list. -/

/-- Python `TCPTransport.MAX_MSG_BYTES`. -/
def MAX_MSG_BYTES : Nat := 100000

/-- Errors surfaced by the embedded code (each names the Python exception or
the spec's name for it). -/
inductive RpcError where
  /-- Python `ValueError("Overly large RPC message! ...")` in `read_msg_bytes`. -/
  | messageTooLarge
  /-- Python `asyncio.IncompleteReadError` from `readexactly` at end-of-stream. -/
  | unexpectedEOF
  /-- xdrlib unpack failure while parsing a header or argument. -/
  | codecError
  /-- Python `KeyError` from `self.procs[proc_id]`; the spec calls it `UnknownProcedure`. -/
  | unknownProcedure
  /-- Python `AttributeError` from `getattr(self, name)` when no handler is bound. -/
  | attributeError
  /-- an exception raised by the invoked handler itself -/
  | handlerError
deriving DecidableEq, Repr

/-- Python `struct.pack("!L", n)`: big-endian 4-byte encoding of `n < 2 ^ 32`. -/
def be32 (n : Nat) : List Nat :=
  [n / 2 ^ 24 % 256, n / 2 ^ 16 % 256, n / 2 ^ 8 % 256, n % 256]

/-- Python `struct.unpack("!L", bs)[0]` for a 4-byte word. -/
def beVal (bs : List Nat) : Nat :=
  match bs with
  | [b0, b1, b2, b3] => ((b0 * 256 + b1) * 256 + b2) * 256 + b3
  | _ => 0

/-- Python `TCPTransport.write_msg_bytes`: prepend the 4-byte fragment header
`len(msg) | (1 << 31)` — the length with the last-fragment bit set — then the
message bytes. -/
def write_msg_bytes (msg : List Nat) : List Nat :=
  be32 (msg.length ||| 2 ^ 31) ++ msg

/-- The fragment-reassembly loop of `TCPTransport.read_msg_bytes` over stream `s`.
Each round: `readexactly(4)` and `struct.unpack("!L")` give `frag_header`;
`frag_header & (1 << 31)` (tested for non-zero) is the last-fragment bit, i.e.
`testBit 31`; `frag_header & ~(1 << 31)` clears that bit, giving `frag_len`;
the accumulated `total_len` is checked against `MAX_MSG_BYTES` *before* the
fragment body is read, so an oversized message errors without delivering bytes.
Returns the reassembled message together with the unconsumed stream. -/
def read_msg_bytes_go (acc : List Nat) (total_len : Nat) (s : List Nat) :
    Except RpcError (List Nat × List Nat) :=
  if h4 : 4 ≤ s.length then
    let frag_header := beVal (s.take 4)
    let frag_len := if frag_header.testBit 31 then frag_header - 2 ^ 31 else frag_header
    if total_len + frag_len > MAX_MSG_BYTES then
      .error .messageTooLarge
    else if hlen : frag_len ≤ (s.drop 4).length then
      if frag_header.testBit 31 then
        .ok (acc ++ (s.drop 4).take frag_len, (s.drop 4).drop frag_len)
      else
        read_msg_bytes_go (acc ++ (s.drop 4).take frag_len) (total_len + frag_len)
          ((s.drop 4).drop frag_len)
    else .error .unexpectedEOF
  else .error .unexpectedEOF
termination_by s.length
decreasing_by
  simp only [List.length_drop]
  omega

/-- Python `TCPTransport.read_msg_bytes`: reassemble one record-marked message. -/
def read_msg_bytes (s : List Nat) : Except RpcError (List Nat × List Nat) :=
  read_msg_bytes_go [] 0 s

/-- One wire fragment: a 4-byte header holding the payload length, bit 31 set
iff this is the message's final fragment (the wire format of §6 of the spec;
`write_msg_bytes` always emits a single `last := true` fragment). -/
def frame_fragment (last : Bool) (chunk : List Nat) : List Nat :=
  be32 (if last then chunk.length ||| 2 ^ 31 else chunk.length) ++ chunk

/-- A message delivered as several fragments, only the final one marked last. -/
def encode_fragments : List (List Nat) → List Nat
  | [] => []
  | [c] => frame_fragment true c
  | c :: cs => frame_fragment false c ++ encode_fragments cs

/-! ### Bitwise bridging lemmas -/

theorem or_two_pow_31 {n : Nat} (h : n < 2 ^ 31) : n ||| 2 ^ 31 = n + 2 ^ 31 := by
  apply Nat.eq_of_testBit_eq
  intro j
  rcases Nat.lt_trichotomy j 31 with hj | hj | hj
  · rw [Nat.testBit_lor, Nat.testBit_two_pow_of_ne (by omega), Nat.add_comm,
      Nat.testBit_two_pow_add_gt hj]
    simp
  · subst hj
    rw [Nat.testBit_lor, Nat.testBit_two_pow_self, Nat.add_comm, Nat.testBit_two_pow_add_eq,
      Nat.testBit_lt_two_pow h]
    simp
  · have h1 : n < 2 ^ j := lt_of_lt_of_le h (Nat.pow_le_pow_right (by norm_num) (by omega))
    have h2 : n + 2 ^ 31 < 2 ^ j := by
      have h32 : 2 ^ 32 ≤ 2 ^ j := Nat.pow_le_pow_right (by norm_num) (by omega)
      have : (2 : Nat) ^ 32 = 2 ^ 31 + 2 ^ 31 := by norm_num
      omega
    rw [Nat.testBit_lor, Nat.testBit_lt_two_pow h1, Nat.testBit_lt_two_pow h2,
      Nat.testBit_two_pow_of_ne (by omega)]
    simp

theorem testBit31_of_lt {n : Nat} (h : n < 2 ^ 31) : n.testBit 31 = false :=
  Nat.testBit_lt_two_pow h

theorem testBit31_add_two_pow {n : Nat} (h : n < 2 ^ 31) :
    (n + 2 ^ 31).testBit 31 = true := by
  rw [Nat.add_comm, Nat.testBit_two_pow_add_eq, Nat.testBit_lt_two_pow h]
  rfl

theorem beVal_be32 {n : Nat} (h : n < 2 ^ 32) : beVal (be32 n) = n := by
  simp only [be32, beVal]
  omega

theorem be32_length (n : Nat) : (be32 n).length = 4 := rfl

theorem MAX_lt_two_pow_31 : MAX_MSG_BYTES < 2 ^ 31 := by norm_num [MAX_MSG_BYTES]

/-! ### One-fragment unfoldings of the reassembly loop -/

theorem read_go_last (acc : List Nat) (total_len : Nat) (c s : List Nat)
    (hmax : total_len + c.length ≤ MAX_MSG_BYTES) :
    read_msg_bytes_go acc total_len (frame_fragment true c ++ s) =
      .ok (acc ++ c, s) := by
  have hc31 : c.length < 2 ^ 31 := by have := MAX_lt_two_pow_31; omega
  have hw32 : c.length + 2 ^ 31 < 2 ^ 32 := by omega
  have hst : frame_fragment true c ++ s = be32 (c.length + 2 ^ 31) ++ (c ++ s) := by
    rw [frame_fragment, if_pos rfl, or_two_pow_31 hc31, List.append_assoc]
  rw [hst, read_msg_bytes_go]
  have h4 : 4 ≤ (be32 (c.length + 2 ^ 31) ++ (c ++ s)).length := by
    simp [be32_length]
  rw [dif_pos h4]
  simp only [List.take_left' (be32_length _), List.drop_left' (be32_length _),
    beVal_be32 hw32, testBit31_add_two_pow hc31, if_true]
  have hfl : c.length + 2 ^ 31 - 2 ^ 31 = c.length := by omega
  rw [hfl]
  rw [if_neg (by omega)]
  rw [dif_pos (by simp)]
  simp [List.take_left, List.drop_left]

theorem read_go_cont (acc : List Nat) (total_len : Nat) (c s : List Nat)
    (hc31 : c.length < 2 ^ 31)
    (hmax : total_len + c.length ≤ MAX_MSG_BYTES) :
    read_msg_bytes_go acc total_len (frame_fragment false c ++ s) =
      read_msg_bytes_go (acc ++ c) (total_len + c.length) s := by
  have hw32 : c.length < 2 ^ 32 := by omega
  have hst : frame_fragment false c ++ s = be32 c.length ++ (c ++ s) := by
    rw [frame_fragment, if_neg Bool.false_ne_true, List.append_assoc]
  rw [hst, read_msg_bytes_go]
  have h4 : 4 ≤ (be32 c.length ++ (c ++ s)).length := by
    simp [be32_length]
  rw [dif_pos h4]
  simp only [List.take_left' (be32_length _), List.drop_left' (be32_length _),
    beVal_be32 hw32, testBit31_of_lt hc31, if_false, Bool.false_eq_true]
  rw [if_neg (by omega)]
  rw [dif_pos (by simp)]
  simp [List.take_left, List.drop_left]

theorem read_go_too_large (acc : List Nat) (total_len : Nat) (last : Bool) (c s : List Nat)
    (hc31 : c.length < 2 ^ 31)
    (hmax : total_len + c.length > MAX_MSG_BYTES) :
    read_msg_bytes_go acc total_len (frame_fragment last c ++ s) =
      .error .messageTooLarge := by
  cases last with
  | true =>
    have hw32 : c.length + 2 ^ 31 < 2 ^ 32 := by omega
    have hst : frame_fragment true c ++ s = be32 (c.length + 2 ^ 31) ++ (c ++ s) := by
      rw [frame_fragment, if_pos rfl, or_two_pow_31 hc31, List.append_assoc]
    rw [hst, read_msg_bytes_go]
    rw [dif_pos (by simp [be32_length])]
    simp only [List.take_left' (be32_length _), List.drop_left' (be32_length _),
      beVal_be32 hw32, testBit31_add_two_pow hc31, if_true]
    have hfl : c.length + 2 ^ 31 - 2 ^ 31 = c.length := by omega
    rw [hfl, if_pos (by omega)]
  | false =>
    have hw32 : c.length < 2 ^ 32 := by omega
    have hst : frame_fragment false c ++ s = be32 c.length ++ (c ++ s) := by
      rw [frame_fragment, if_neg Bool.false_ne_true, List.append_assoc]
    rw [hst, read_msg_bytes_go]
    rw [dif_pos (by simp [be32_length])]
    simp only [List.take_left' (be32_length _), List.drop_left' (be32_length _),
      beVal_be32 hw32, testBit31_of_lt hc31, if_false, Bool.false_eq_true]
    rw [if_pos (by omega)]

/-- Python `write_msg_bytes` emits exactly one final fragment. -/
theorem write_msg_bytes_eq_frame (msg : List Nat) :
    write_msg_bytes msg = frame_fragment true msg := rfl

/-- Reading a stream that starts with a single final fragment of an in-bounds
message yields that message and consumes exactly the frame. -/
theorem read_write_single (msg s : List Nat) (hmax : msg.length ≤ MAX_MSG_BYTES) :
    read_msg_bytes (write_msg_bytes msg ++ s) = .ok (msg, s) := by
  rw [read_msg_bytes, write_msg_bytes_eq_frame, read_go_last [] 0 msg s (by omega)]
  rfl

/-- Reassembling a properly framed fragment sequence within the size bound
appends the fragment payloads, in order. -/
theorem read_encode_fragments (cs : List (List Nat)) (acc : List Nat)
    (total_len : Nat) (s : List Nat) (hne : cs ≠ [])
    (hmax : total_len + cs.flatten.length ≤ MAX_MSG_BYTES) :
    read_msg_bytes_go acc total_len (encode_fragments cs ++ s) =
      .ok (acc ++ cs.flatten, s) := by
  induction cs generalizing acc total_len with
  | nil => exact absurd rfl hne
  | cons c cs ih =>
    cases cs with
    | nil =>
      have hc : total_len + c.length ≤ MAX_MSG_BYTES := by
        simpa [List.flatten] using hmax
      rw [show encode_fragments [c] = frame_fragment true c from rfl,
        read_go_last acc total_len c s hc]
      simp [List.flatten]
    | cons c' cs' =>
      have hj : ([c] ++ (c' :: cs')).flatten.length = c.length + (c' :: cs').flatten.length := by
        simp
      have hc : total_len + c.length ≤ MAX_MSG_BYTES := by
        simp only [List.flatten_cons, List.length_append] at hmax
        omega
      have hc31 : c.length < 2 ^ 31 := by
        have := MAX_lt_two_pow_31
        omega
      rw [show encode_fragments (c :: c' :: cs') =
            frame_fragment false c ++ encode_fragments (c' :: cs') from rfl,
        List.append_assoc, read_go_cont acc total_len c _ hc31 hc,
        ih (acc ++ c) (total_len + c.length) (by simp)
          (by simp only [List.flatten_cons, List.length_append] at hmax ⊢; omega)]
      simp [List.flatten]

/-- If the cumulative fragment length of one framed message exceeds the bound,
the reassembly loop fails with `messageTooLarge` (and delivers nothing). -/
theorem read_encode_fragments_too_large (cs : List (List Nat)) (acc : List Nat)
    (total_len : Nat) (s : List Nat) (hne : cs ≠ [])
    (h31 : ∀ c ∈ cs, c.length < 2 ^ 31)
    (hmax : total_len + cs.flatten.length > MAX_MSG_BYTES) :
    read_msg_bytes_go acc total_len (encode_fragments cs ++ s) =
      .error .messageTooLarge := by
  induction cs generalizing acc total_len with
  | nil => exact absurd rfl hne
  | cons c cs ih =>
    have hc31 : c.length < 2 ^ 31 := h31 c (by simp)
    cases cs with
    | nil =>
      have hc : total_len + c.length > MAX_MSG_BYTES := by
        simpa [List.flatten] using hmax
      rw [show encode_fragments [c] = frame_fragment true c from rfl,
        read_go_too_large acc total_len true c s hc31 hc]
    | cons c' cs' =>
      by_cases hc : total_len + c.length > MAX_MSG_BYTES
      · rw [show encode_fragments (c :: c' :: cs') =
            frame_fragment false c ++ encode_fragments (c' :: cs') from rfl,
          List.append_assoc, read_go_too_large acc total_len false c _ hc31 hc]
      · rw [show encode_fragments (c :: c' :: cs') =
            frame_fragment false c ++ encode_fragments (c' :: cs') from rfl,
          List.append_assoc, read_go_cont acc total_len c _ hc31 (by omega),
          ih (acc ++ c) (total_len + c.length) (by simp)
            (fun d hd => h31 d (List.mem_cons_of_mem _ hd))
            (by simp only [List.flatten_cons, List.length_append] at hmax ⊢; omega)]

/-- C4: if the cumulative length of the fragments of one record-marked message
exceeds `MAX_MSG_BYTES = 100000`, `read_msg_bytes` fails with `messageTooLarge`
and the partially reassembled bytes are never delivered (only the error is
returned); a message whose cumulative length is at most the bound does not
trigger this failure. -/
theorem size_bound_C4 (cs : List (List Nat)) (s : List Nat) (hne : cs ≠ [])
    (h31 : ∀ c ∈ cs, c.length < 2 ^ 31) :
    (cs.flatten.length > MAX_MSG_BYTES →
      read_msg_bytes (encode_fragments cs ++ s) = .error .messageTooLarge) ∧
    (cs.flatten.length ≤ MAX_MSG_BYTES →
      read_msg_bytes (encode_fragments cs ++ s) = .ok (cs.flatten, s)) := by
  constructor
  · intro h
    rw [read_msg_bytes, read_encode_fragments_too_large cs [] 0 s hne h31 (by omega)]
  · intro h
    rw [read_msg_bytes, read_encode_fragments cs [] 0 s hne (by omega)]
    simp

/-- Witness for C4 at concrete fragment lists (cumulative 110000 fails,
cumulative 100000 succeeds). -/
theorem size_bound_C4_witness :
    read_msg_bytes (encode_fragments [List.replicate 60000 0, List.replicate 50000 0] ++ []) =
      .error .messageTooLarge ∧
    read_msg_bytes (encode_fragments [List.replicate 60000 0, List.replicate 40000 0] ++ []) =
      .ok ([List.replicate 60000 (0 : Nat), List.replicate 40000 0].flatten, []) := by
  constructor
  · refine (size_bound_C4 [List.replicate 60000 0, List.replicate 50000 0] []
      (List.cons_ne_nil _ _) ?_).1 ?_
    · intro c hc
      rcases List.mem_cons.mp hc with rfl | hc
      · rw [List.length_replicate]; norm_num
      rcases List.mem_cons.mp hc with rfl | hc
      · rw [List.length_replicate]; norm_num
      exact absurd hc (List.not_mem_nil _)
    · rw [List.flatten_cons, List.flatten_cons, List.flatten_nil, List.append_nil,
        List.length_append, List.length_replicate, List.length_replicate]
      norm_num [MAX_MSG_BYTES]
  · refine (size_bound_C4 [List.replicate 60000 0, List.replicate 40000 0] []
      (List.cons_ne_nil _ _) ?_).2 ?_
    · intro c hc
      rcases List.mem_cons.mp hc with rfl | hc
      · rw [List.length_replicate]; norm_num
      rcases List.mem_cons.mp hc with rfl | hc
      · rw [List.length_replicate]; norm_num
      exact absurd hc (List.not_mem_nil _)
    · rw [List.flatten_cons, List.flatten_cons, List.flatten_nil, List.append_nil,
        List.length_append, List.length_replicate, List.length_replicate]
      norm_num [MAX_MSG_BYTES]

/-- C6: a payload delivered as multiple record-marking fragments (each prefixed
with its 31-bit length, only the last carrying the final-fragment bit) reads
back identical to the same payload delivered as one single final fragment. -/
theorem fragment_reassembly_C6 (cs : List (List Nat)) (s : List Nat) (hne : cs ≠ [])
    (hmax : cs.flatten.length ≤ MAX_MSG_BYTES) :
    read_msg_bytes (encode_fragments cs ++ s) =
      read_msg_bytes (write_msg_bytes cs.flatten ++ s) ∧
    read_msg_bytes (encode_fragments cs ++ s) = .ok (cs.flatten, s) := by
  have h1 : read_msg_bytes (encode_fragments cs ++ s) = .ok (cs.flatten, s) := by
    rw [read_msg_bytes, read_encode_fragments cs [] 0 s hne (by omega)]
    simp
  exact ⟨h1.trans (read_write_single cs.flatten s hmax).symm, h1⟩

/-- Witness for C6 at the spec's example fragmentation `[40000, 40000, 1]`. -/
theorem fragment_reassembly_C6_witness :
    read_msg_bytes
        (encode_fragments [List.replicate 40000 7, List.replicate 40000 7, [9]] ++ []) =
      read_msg_bytes
        (write_msg_bytes [List.replicate 40000 (7 : Nat), List.replicate 40000 7, [9]].flatten
          ++ []) := by
  refine (fragment_reassembly_C6 [List.replicate 40000 7, List.replicate 40000 7, [9]] []
    (List.cons_ne_nil _ _) ?_).1
  rw [List.flatten_cons, List.flatten_cons, List.flatten_cons, List.flatten_nil,
    List.append_nil, List.length_append, List.length_append, List.length_replicate]
  norm_num [MAX_MSG_BYTES]

/-! ## RPC envelope and its XDR codec

`rpc.py` imports the `v_rpc_msg` structure and its packer from the generated
module `pynefs.generated.rfc1831` and the `xdrlib` standard library; the
generated module is not among the sources, so the wire layout of the header is
modelled from the spec (§6).  The `xdrlib` primitives (`pack_uint`,
`pack_fstring`, and their unpackers) follow that library's documented
behavior: 4-byte big-endian words, data zero-padded to multiples of four. -/

/-- Python `msg_type.CALL`. -/
def CALL : Nat := 0

/-- Python `msg_type.REPLY`. -/
def REPLY : Nat := 1

/-- Python `reply_stat.MSG_ACCEPTED`. -/
def MSG_ACCEPTED : Nat := 0

/-- Python `accept_stat.SUCCESS`. -/
def SUCCESS : Nat := 0

/-- Python `accept_stat.SYSTEM_ERR`. -/
def SYSTEM_ERR : Nat := 5

/-- Python `v_opaque_auth`: an auth flavor and its opaque body. -/
structure OpaqueAuth where
  flavor : Nat
  body : List Nat
deriving DecidableEq, Repr

/-- Python `v_opaque_auth(flavor=AUTH_NONE, body=b"")` — the only auth the engine uses. -/
def nullAuth : OpaqueAuth := ⟨0, []⟩

/-- Message body: a CALL (`v_call_body`: rpcvers, prog, vers, proc, cred, verf)
or a REPLY in the shape `Server.make_reply` builds (`v_reply_body` stat with
the accepted branch's verifier and result status). -/
inductive RpcBody where
  | call (rpcvers prog vers proc : Nat) (cred verf : OpaqueAuth)
  | reply (stat : Nat) (verf : OpaqueAuth) (acceptStat : Nat)
deriving DecidableEq, Repr

/-- Python `v_rpc_msg`: transaction id plus header body. -/
structure RpcMsg where
  xid : Nat
  body : RpcBody
deriving DecidableEq, Repr

/-- Python `msg.header.mtype`. -/
def RpcMsg.mtype (m : RpcMsg) : Nat :=
  match m.body with
  | .call .. => CALL
  | .reply .. => REPLY

/-- xdrlib rounds data lengths up to a multiple of four. -/
def pad4 (n : Nat) : Nat := (n + 3) / 4 * 4

/-- Python `xdrlib.Packer.pack_fstring(n, s)`: the first `n` bytes of `s`, zero-padded
to a multiple of four. -/
def pack_fstring (n : Nat) (s : List Nat) : List Nat :=
  s.take n ++ List.replicate (pad4 n - (s.take n).length) 0

/-- Python `xdrlib.Unpacker.unpack_uint`: one 4-byte big-endian word. -/
def readWord (s : List Nat) : Option (Nat × List Nat) :=
  if 4 ≤ s.length then some (beVal (s.take 4), s.drop 4) else none

/-- Python `xdrlib.Unpacker.unpack_fstring(n)`: `n` bytes of data, consuming the
zero padding up to the 4-byte boundary. -/
def readFString (n : Nat) (s : List Nat) : Option (List Nat × List Nat) :=
  if pad4 n ≤ s.length then some (s.take n, s.drop (pad4 n)) else none

/-- Modelled from the spec: XDR encoding of an `opaque_auth` — flavor word,
body length word, body bytes zero-padded (the generated packer is not among
the sources; layout per §6 of the spec and the XDR opaque rule). -/
def packAuth (a : OpaqueAuth) : List Nat :=
  be32 a.flavor ++ be32 a.body.length ++ pack_fstring a.body.length a.body

/-- Modelled from the spec: decoder matching `packAuth`. -/
def unpackAuth (s : List Nat) : Option (OpaqueAuth × List Nat) :=
  match readWord s with
  | none => none
  | some (flavor, s1) =>
    match readWord s1 with
    | none => none
    | some (len, s2) =>
      match readFString len s2 with
      | none => none
      | some (body, s3) => some (⟨flavor, body⟩, s3)

/-- Modelled from the spec: `rpc_msg.pack` — xid, message type discriminant,
then the call fields (rpcvers, prog, vers, proc, cred, verf) or the reply
fields (reply status; verifier and result status of the accepted branch). -/
def packMsg (m : RpcMsg) : List Nat :=
  be32 m.xid ++
    match m.body with
    | .call rpcvers prog vers proc cred verf =>
        be32 CALL ++ be32 rpcvers ++ be32 prog ++ be32 vers ++ be32 proc ++
          packAuth cred ++ packAuth verf
    | .reply stat verf acceptStat =>
        be32 REPLY ++ be32 stat ++ packAuth verf ++ be32 acceptStat

/-- Modelled from the spec: `rpc_msg.unpack` — decoder matching `packMsg`,
returning the parsed header and the bytes after the parse position. -/
def unpackMsg (s : List Nat) : Option (RpcMsg × List Nat) :=
  match readWord s with
  | none => none
  | some (xid, s1) =>
    match readWord s1 with
    | none => none
    | some (mtype, s2) =>
      if mtype = CALL then
        match readWord s2 with
        | none => none
        | some (rpcvers, s3) =>
          match readWord s3 with
          | none => none
          | some (prog, s4) =>
            match readWord s4 with
            | none => none
            | some (vers, s5) =>
              match readWord s5 with
              | none => none
              | some (proc, s6) =>
                match unpackAuth s6 with
                | none => none
                | some (cred, s7) =>
                  match unpackAuth s7 with
                  | none => none
                  | some (verf, s8) =>
                    some (⟨xid, .call rpcvers prog vers proc cred verf⟩, s8)
      else if mtype = REPLY then
        match readWord s2 with
        | none => none
        | some (stat, s3) =>
          match unpackAuth s3 with
          | none => none
          | some (verf, s4) =>
            match readWord s4 with
            | none => none
            | some (acceptStat, s5) =>
              some (⟨xid, .reply stat verf acceptStat⟩, s5)
      else none

/-- Numeric fields of an auth fit in the 4-byte words that carry them. -/
def WFAuth (a : OpaqueAuth) : Prop :=
  a.flavor < 2 ^ 32 ∧ a.body.length < 2 ^ 32

/-- Numeric fields of a header fit in the 4-byte words that carry them. -/
def WFMsg (m : RpcMsg) : Prop :=
  m.xid < 2 ^ 32 ∧
    match m.body with
    | .call rpcvers prog vers proc cred verf =>
        rpcvers < 2 ^ 32 ∧ prog < 2 ^ 32 ∧ vers < 2 ^ 32 ∧ proc < 2 ^ 32 ∧
          WFAuth cred ∧ WFAuth verf
    | .reply stat verf acceptStat =>
        stat < 2 ^ 32 ∧ WFAuth verf ∧ acceptStat < 2 ^ 32

/-- Python `BaseTransport.write_msg(header, body)`: pack the header, append the body
via `pack_fstring(len(body), body)` — zero-padding it to a multiple of four —
and frame the result as a single final fragment. -/
def write_msg (header : RpcMsg) (body : List Nat) : List Nat :=
  write_msg_bytes (packMsg header ++ pack_fstring body.length body)

/-- Python `BaseTransport.read_msg`: reassemble one framed message, parse its header,
and return `(header, buffer[position:])` plus the unconsumed stream. -/
def read_msg (s : List Nat) : Except RpcError ((RpcMsg × List Nat) × List Nat) :=
  match read_msg_bytes s with
  | .error e => .error e
  | .ok (msg_bytes, rest) =>
    match unpackMsg msg_bytes with
    | none => .error .codecError
    | some (msg, remaining) => .ok ((msg, remaining), rest)

/-! ### Codec round-trip lemmas -/

theorem readWord_be32 (n : Nat) (h : n < 2 ^ 32) (r : List Nat) :
    readWord (be32 n ++ r) = some (n, r) := by
  rw [readWord, if_pos (by simp [be32_length]),
    List.take_left' (be32_length n), List.drop_left' (be32_length n), beVal_be32 h]

theorem le_pad4 (n : Nat) : n ≤ pad4 n := by
  rw [pad4]; omega

theorem pack_fstring_full (s : List Nat) :
    pack_fstring s.length s = s ++ List.replicate (pad4 s.length - s.length) 0 := by
  simp [pack_fstring]

theorem length_pack_fstring_full (s : List Nat) :
    (pack_fstring s.length s).length = pad4 s.length := by
  have h := le_pad4 s.length
  simp [pack_fstring_full]
  omega

theorem readFString_pack (s r : List Nat) :
    readFString s.length (pack_fstring s.length s ++ r) = some (s, r) := by
  have hlen := length_pack_fstring_full s
  have hle := le_pad4 s.length
  rw [readFString, if_pos (by simp [hlen]), List.drop_left' hlen]
  congr 1
  rw [pack_fstring_full, List.append_assoc]
  exact congrArg (fun t => (t, r)) (List.take_left' rfl)

theorem unpackAuth_packAuth (a : OpaqueAuth) (ha : WFAuth a) (r : List Nat) :
    unpackAuth (packAuth a ++ r) = some (a, r) := by
  obtain ⟨hf, hl⟩ := ha
  simp only [packAuth, List.append_assoc, unpackAuth,
    readWord_be32 _ hf, readWord_be32 _ hl, readFString_pack]

theorem unpackMsg_packMsg (m : RpcMsg) (hm : WFMsg m) (r : List Nat) :
    unpackMsg (packMsg m ++ r) = some (m, r) := by
  obtain ⟨hxid, hbody⟩ := hm
  obtain ⟨xid, body⟩ := m
  cases body with
  | call rpcvers prog vers proc cred verf =>
    obtain ⟨h1, h2, h3, h4, hc, hv⟩ := hbody
    simp only [packMsg, List.append_assoc, unpackMsg,
      readWord_be32 _ hxid, readWord_be32 _ (show CALL < 2 ^ 32 by norm_num [CALL]),
      readWord_be32 _ h1, readWord_be32 _ h2, readWord_be32 _ h3, readWord_be32 _ h4,
      unpackAuth_packAuth _ hc, unpackAuth_packAuth _ hv, if_pos rfl, if_true]
  | reply stat verf acceptStat =>
    obtain ⟨h1, hv, h2⟩ := hbody
    simp only [packMsg, List.append_assoc, unpackMsg,
      readWord_be32 _ hxid, readWord_be32 _ (show REPLY < 2 ^ 32 by norm_num [REPLY]),
      readWord_be32 _ h1, readWord_be32 _ h2, unpackAuth_packAuth _ hv,
      if_neg (show ¬REPLY = CALL by norm_num [REPLY, CALL]), if_pos rfl, if_true]

/-- C5 (amended): for every well-formed header and payload whose packed header
plus zero-padded payload fit in `MAX_MSG_BYTES`, `write_msg` followed by
`read_msg` yields exactly the original header, and the payload zero-padded
with `0` bytes to a multiple of four — hence exactly the original payload
bytes whenever the payload length is a multiple of four. -/
theorem write_read_round_trip_C5 (header : RpcMsg) (body : List Nat)
    (hwf : WFMsg header)
    (hmax : (packMsg header).length + pad4 body.length ≤ MAX_MSG_BYTES) :
    read_msg (write_msg header body) =
      .ok ((header, body ++ List.replicate (pad4 body.length - body.length) 0), []) ∧
    (body.length % 4 = 0 →
      read_msg (write_msg header body) = .ok ((header, body), [])) := by
  have hlen : (packMsg header ++ pack_fstring body.length body).length ≤ MAX_MSG_BYTES := by
    rw [List.length_append, length_pack_fstring_full]
    exact hmax
  have h1 : read_msg_bytes (write_msg header body) =
      .ok (packMsg header ++ pack_fstring body.length body, []) := by
    have h := read_write_single (packMsg header ++ pack_fstring body.length body) [] hlen
    simpa [write_msg] using h
  have h3 : read_msg (write_msg header body) =
      .ok ((header, pack_fstring body.length body), []) := by
    rw [read_msg, h1]
    simp only [unpackMsg_packMsg header hwf]
  constructor
  · rw [h3, pack_fstring_full]
  · intro h4
    have hp : pad4 body.length = body.length := by rw [pad4]; omega
    rw [h3, pack_fstring_full, hp]
    simp

/-- C5 counterexample: for the one-byte payload `[1]` (length `1 ≤ 100000`) and
a concrete call header, the round trip returns the zero-padded `[1, 0, 0, 0]`,
not the original `[1]` — `read_msg` hands back the body bytes including the
XDR padding that `write_msg`'s `pack_fstring` appended. -/
theorem write_read_round_trip_C5_counterexample :
    read_msg (write_msg ⟨7, .call 2 100003 3 0 nullAuth nullAuth⟩ [1]) =
      .ok ((⟨7, .call 2 100003 3 0 nullAuth nullAuth⟩, [1, 0, 0, 0]), []) ∧
    ([1, 0, 0, 0] : List Nat) ≠ [1] := by
  refine ⟨?_, by decide⟩
  have hwf : WFMsg ⟨7, .call 2 100003 3 0 nullAuth nullAuth⟩ := by
    simp [WFMsg, WFAuth, nullAuth]
  have hlen : (packMsg ⟨7, .call 2 100003 3 0 nullAuth nullAuth⟩ ++
      pack_fstring ([1] : List Nat).length [1]).length ≤ MAX_MSG_BYTES := by decide
  have h1 : read_msg_bytes (write_msg ⟨7, .call 2 100003 3 0 nullAuth nullAuth⟩ [1]) =
      .ok (packMsg ⟨7, .call 2 100003 3 0 nullAuth nullAuth⟩ ++
        pack_fstring ([1] : List Nat).length [1], []) := by
    have h := read_write_single (packMsg ⟨7, .call 2 100003 3 0 nullAuth nullAuth⟩ ++
      pack_fstring ([1] : List Nat).length [1]) [] hlen
    simpa [write_msg] using h
  rw [read_msg, h1]
  simp only [unpackMsg_packMsg _ hwf]
  rfl

/-- Witness for C5's amended theorem at a length-4 payload: the round trip is
exact there. -/
theorem write_read_round_trip_C5_witness :
    read_msg (write_msg ⟨5, .reply 0 nullAuth 0⟩ [2, 3, 4, 5]) =
      .ok ((⟨5, .reply 0 nullAuth 0⟩, [2, 3, 4, 5]), []) :=
  (write_read_round_trip_C5 ⟨5, .reply 0 nullAuth 0⟩ [2, 3, 4, 5]
    (by simp [WFMsg, WFAuth, nullAuth]) (by decide)).2 (by decide)

/-! ## Client (`BaseClient` / `TCPClient`)

The pending-call table `xid_map : Dict[int, asyncio.Future]` is modelled as an
association list from xid to a future id (futures are numbered in creation
order); resolving a future is recorded explicitly, since `Future.set_result`
is an observable effect. -/

/-- A value with which a pending call's future can be resolved.  The code
resolves futures only with `.reply`; `.connClosed` exists so the spec's
required `ConnectionClosed` failure can be stated about the model. -/
inductive FutResult where
  | reply (msg : RpcMsg) (body : List Nat)
  | connClosed
deriving DecidableEq, Repr

/-- Python `BaseClient.pump_reply`: a non-REPLY message is ignored (`return`); a
REPLY's xid is popped from the table (`self.xid_map.pop(reply.xid, None)`);
if nothing was popped the message is dropped (`return`); otherwise the popped
future is resolved with the full message.  Returns the new table and the
resolution performed, if any. -/
def pump_reply (xid_map : List (Nat × Nat)) (msg : RpcMsg × List Nat) :
    List (Nat × Nat) × Option (Nat × FutResult) :=
  if msg.1.mtype ≠ REPLY then (xid_map, none)
  else
    match dictPop msg.1.xid xid_map with
    | (none, d) => (d, none)
    | (some fut, d) => (d, some (fut, .reply msg.1 msg.2))

/-- Python `TCPClient.pump_replies`: the while-loop reads one message at a time while
the transport is open and feeds each to `pump_reply`; when the transport
reports closed, the loop exits — nothing else runs.  The messages read before
closure are the list argument; the returned pair is the final table and the
resolutions performed, in order. -/
def pump_replies (xid_map : List (Nat × Nat)) :
    List (RpcMsg × List Nat) → List (Nat × Nat) × List (Nat × FutResult)
  | [] => (xid_map, [])
  | m :: ms =>
    match pump_reply xid_map m with
    | (d, r) =>
      match pump_replies d ms with
      | (d2, rs) => (d2, r.toList ++ rs)

/-- Python `BaseClient.gen_xid`: `random.getrandbits(32)`; the random draw is an
explicit parameter of the model. -/
def gen_xid (randomBits : Nat) : Nat := randomBits % 2 ^ 32

/-- The xid `BaseClient.send_call` uses: the caller-supplied one, or a
generated one when the argument is `None`. -/
def send_call_xid (xidArg : Option Nat) (randomBits : Nat) : Nat :=
  match xidArg with
  | some xid => xid
  | none => gen_xid randomBits

/-- The pending-call registration in `BaseClient.send_call`
(`self.xid_map[xid] = fut`), executed before the framed call is written. -/
def send_call_register (xid_map : List (Nat × Nat)) (xid fut : Nat) :
    List (Nat × Nat) :=
  dictSet xid fut xid_map

/-- C2: `send_call` never leaves the pending-call table holding two calls
under one transaction id: starting from a table with pairwise-distinct xids,
registering the pending future — under a caller-supplied or a generated xid —
leaves the xids pairwise distinct. -/
theorem send_call_xids_distinct_C2 (xid_map : List (Nat × Nat))
    (xidArg : Option Nat) (randomBits fut : Nat)
    (h : (keys xid_map).Nodup) :
    (keys (send_call_register xid_map (send_call_xid xidArg randomBits) fut)).Nodup :=
  keys_nodup_dictSet _ _ _ h

/-- Witness for C2: a generated xid (5) inserted into a two-entry table. -/
theorem send_call_xids_distinct_C2_witness :
    (keys (send_call_register [(1, 0), (2, 1)] (send_call_xid none 5) 2)).Nodup :=
  send_call_xids_distinct_C2 [(1, 0), (2, 1)] none 5 2 (by decide)

/-- C7: a message whose type is not REPLY, or a REPLY whose transaction id has
no entry in the pending-call table, is dropped with no other effect: the table
and every pending future are left exactly as they were (no resolution is
performed). -/
theorem pump_reply_drop_C7 (xid_map : List (Nat × Nat)) (msg : RpcMsg)
    (body : List Nat) :
    (msg.mtype ≠ REPLY → pump_reply xid_map (msg, body) = (xid_map, none)) ∧
    (alookup msg.xid xid_map = none →
      pump_reply xid_map (msg, body) = (xid_map, none)) := by
  constructor
  · intro h
    simp [pump_reply, h]
  · intro hl
    by_cases h : msg.mtype = REPLY
    · simp [pump_reply, h, dictPop, hl]
    · simp [pump_reply, h]

/-- Witness for C7: a CALL-typed message, and a REPLY with unknown xid 9,
against the table `[(1, 0)]`. -/
theorem pump_reply_drop_C7_witness :
    pump_reply [(1, 0)] (⟨3, .call 2 0 0 0 nullAuth nullAuth⟩, []) = ([(1, 0)], none) ∧
    pump_reply [(1, 0)] (⟨9, .reply 0 nullAuth 0⟩, []) = ([(1, 0)], none) :=
  ⟨(pump_reply_drop_C7 [(1, 0)] ⟨3, .call 2 0 0 0 nullAuth nullAuth⟩ []).1 (by decide),
   (pump_reply_drop_C7 [(1, 0)] ⟨9, .reply 0 nullAuth 0⟩ []).2 (by decide)⟩

/-- Helper: `pump_reply` only ever resolves a future with a `.reply` value. -/
theorem pump_reply_resolution (xid_map : List (Nat × Nat))
    (m : RpcMsg × List Nat) (r : Nat × FutResult)
    (h : (pump_reply xid_map m).2 = some r) : ∃ mm b, r.2 = .reply mm b := by
  by_cases hm : m.1.mtype ≠ REPLY
  · simp [pump_reply, hm] at h
  · rcases hd : dictPop m.1.xid xid_map with ⟨vo, d⟩
    cases vo with
    | none => simp [pump_reply, hm, hd] at h
    | some fut =>
      simp only [pump_reply, hm, if_false, hd, ite_false, ite_not,
        Option.some.injEq] at h
      exact ⟨m.1, m.2, by rw [← h]⟩

/-- C3 (the code at the claim's trigger): when the transport becomes closed,
the reply-pump loop merely exits: every still-pending entry stays in the
table and no future is resolved; moreover no execution of the pump ever
resolves a future with `connClosed`.  The claim requires every pending call
to be failed with a `ConnectionClosed` error at transport closure; the code
has no path that does so. -/
theorem transport_close_pending_C3 (xid_map : List (Nat × Nat))
    (msgs : List (RpcMsg × List Nat)) :
    pump_replies xid_map [] = (xid_map, []) ∧
    ∀ r ∈ (pump_replies xid_map msgs).2, r.2 ≠ FutResult.connClosed := by
  refine ⟨rfl, ?_⟩
  induction msgs generalizing xid_map with
  | nil => simp [pump_replies]
  | cons m ms ih =>
    intro r hr
    rcases h1 : pump_reply xid_map m with ⟨d, ro⟩
    rcases h2 : pump_replies d ms with ⟨d2, rs⟩
    simp only [pump_replies, h1, h2, List.mem_append] at hr
    rcases hr with hr | hr
    · cases ro with
      | none => simp at hr
      | some r0 =>
        simp only [Option.toList_some, List.mem_singleton] at hr
        subst hr
        obtain ⟨mm, b, he⟩ := pump_reply_resolution xid_map m r (by rw [h1])
        rw [he]
        simp
    · have := ih d
      rw [h2] at this
      exact this r hr

/-! ## Server (`Server` / `TCPServer`)

Procedure descriptors and codecs come from `pynefs.rpchelp` (an external
collaborator specified at its interface boundary): a codec packs a value to
bytes and unpacks bytes to a value.  Handlers are the server's bound methods;
Python's `getattr(self, name)` is modelled as a name-indexed partial map, and
a handler that raises is modelled by an `Except` result. -/

/-- An argument/return value as seen by codecs and handlers. -/
inductive XValue where
  | num (n : Nat)
  | str (t : String)
  | raw (bs : List Nat)
deriving DecidableEq, Repr

/-- A `pynefs.rpchelp` codec: paired serializer/deserializer for one type. -/
structure Codec where
  pack : XValue → List Nat
  unpack : List Nat → Option (XValue × List Nat)

/-- Python `rpchelp.Proc`: one procedure descriptor — name, ordered argument codecs,
return codec. -/
structure Proc where
  name : String
  arg_types : List Codec
  ret_type : Codec

/-- A `Server` subclass as produced by rpcgen: program/version, the procedure
table, the bound methods (indexed by name, as `getattr` sees them), and the
`deliberately_unimplemented` name list. -/
structure ServerDef where
  prog : Nat
  vers : Nat
  procs : List (Nat × Proc)
  handlers : String → Option (List XValue → Except Unit XValue)
  deliberately_unimplemented : List String

/-- The list comprehension `[arg_type.unpack(unpacker) for arg_type in
proc.arg_types]`: decode one value per declared codec, in declaration order,
threading the unpacker position; any codec failure aborts the whole decode. -/
def unpackArgs : List Codec → List Nat → Option (List XValue × List Nat)
  | [], s => some ([], s)
  | c :: cs, s =>
    match c.unpack s with
    | none => none
    | some (v, s1) =>
      match unpackArgs cs s1 with
      | none => none
      | some (vs, s2) => some (v :: vs, s2)

/-- Python `Server.handle_proc_call(proc_id, call_body)`: `self.procs[proc_id]`
raises `KeyError` when the id is absent (the spec's `UnknownProcedure`; the
subsequent `if proc is None` check can only fire if the table maps an id to
`None`, which a generated table never does); then each argument is decoded in
declaration order, the handler bound under the procedure's name is invoked
positionally (`getattr(self, self.procs[proc_id].name)`), and the return
value is packed with the return codec.  Besides the reply bytes, the model
returns the invocation log — which handler ran, with which arguments; one
entry per run. -/
def handle_proc_call (s : ServerDef) (proc_id : Nat) (call_body : List Nat) :
    Except RpcError (List Nat × List (String × List XValue)) :=
  match alookup proc_id s.procs with
  | none => .error .unknownProcedure
  | some proc =>
    match unpackArgs proc.arg_types call_body with
    | none => .error .codecError
    | some (argl, _) =>
      match s.handlers proc.name with
      | none => .error .attributeError
      | some f =>
        match f argl with
        | .error _ => .error .handlerError
        | .ok rv => .ok (proc.ret_type.pack rv, [(proc.name, argl)])

/-- Python `Server.make_reply(xid, stat, msg_stat)`: a REPLY envelope carrying the
given xid, acceptance status, a null verifier, and the given result status. -/
def make_reply (xid stat msg_stat : Nat) : RpcMsg :=
  ⟨xid, .reply stat nullAuth msg_stat⟩

/-- Python `msg.header.cbody.proc` — the called procedure id (CALL messages only;
the dispatch loop never reads it from a reply). -/
def RpcMsg.proc (m : RpcMsg) : Nat :=
  match m.body with
  | .call _ _ _ proc _ _ => proc
  | .reply .. => 0

/-- Python `TCPServer.handle_call`: dispatch one CALL body and produce the framed
reply (`make_reply(call.xid)` with its default MSG_ACCEPTED/SUCCESS statuses)
or propagate the dispatch failure. -/
def handle_call (s : ServerDef) (call : RpcMsg) (call_body : List Nat) :
    Except RpcError ((RpcMsg × List Nat) × List (String × List XValue)) :=
  match handle_proc_call s call.proc call_body with
  | .error e => .error e
  | .ok (reply_body, log) =>
      .ok ((make_reply call.xid MSG_ACCEPTED SUCCESS, reply_body), log)

/-- Python `TCPServer.handle_connection`'s read/dispatch loop, over the messages
arriving on one connection (poll timeouts re-enter the loop without effect
and are omitted; the end of the list is the peer closing, upon which the loop
exits and the final `transport.close()` runs).  Returns the replies written
in order, whether the transport was closed, and the connection outcome:
`.error e` when a dispatch failure tore the connection down — the handler
sends one MSG_ACCEPTED/SYSTEM_ERR reply with the failing call's xid and empty
body, closes the transport, and re-raises, so no later message is processed. -/
def handle_connection (s : ServerDef) :
    List (RpcMsg × List Nat) →
      List (RpcMsg × List Nat) × Bool × Except RpcError Unit
  | [] => ([], true, .ok ())
  | (call, call_body) :: rest =>
    if call.mtype ≠ CALL then handle_connection s rest
    else
      match handle_call s call call_body with
      | .ok (reply, _) =>
        match handle_connection s rest with
        | (replies, closed, outcome) => (reply :: replies, closed, outcome)
      | .error e =>
          ([(make_reply call.xid MSG_ACCEPTED SYSTEM_ERR, [])], true, .error e)

/-- Python `TCPServer.__init__(bind_host, bind_port)`: the constructor body is the
two attribute assignments and nothing else; neither `Server` nor `TCPServer`
defines any other initializer, so nothing can raise here and no completeness
check runs at construction time (despite the `Server` docstring promising
one "at instantiation time"). -/
structure TCPServerState where
  sdef : ServerDef
  bind_host : String
  bind_port : Nat

/-- Python `TCPServer(bind_host, bind_port)` — always succeeds. -/
def tcpServer_init (sdef : ServerDef) (bind_host : String) (bind_port : Nat) :
    Except RpcError TCPServerState :=
  .ok ⟨sdef, bind_host, bind_port⟩

/-- The spec's example `int32` codec: one 4-byte big-endian word. -/
def int32Codec : Codec where
  pack := fun v =>
    match v with
    | .num n => be32 (n % 2 ^ 32)
    | _ => []
  unpack := fun s =>
    match readWord s with
    | none => none
    | some (n, s1) => some (.num n, s1)

/-- The spec's example `string` codec, over raw bytes: XDR length-prefixed
data, zero-padded to a multiple of four. -/
def rawCodec : Codec where
  pack := fun v =>
    match v with
    | .raw bs => be32 bs.length ++ pack_fstring bs.length bs
    | _ => []
  unpack := fun s =>
    match readWord s with
    | none => none
    | some (n, s1) =>
      match readFString n s1 with
      | none => none
      | some (bs, s2) => some (.raw bs, s2)

/-- A server declaring procedure 1 ("lookup") with no bound handler and no
deliberately-unimplemented listing: an incomplete table. -/
def incompleteServer : ServerDef :=
  ⟨100003, 3, [(1, ⟨"lookup", [], int32Codec⟩)], fun _ => none, []⟩

/-- C1 (the code evaluated at the failing input): `incompleteServer` declares
a procedure whose name has no bound callable and is not listed as
deliberately unimplemented, yet `TCPServer.__init__` succeeds — construction
performs no completeness validation, so it cannot fail as the claim (and the
`Server` docstring) require. -/
theorem construction_completeness_C1 :
    (∃ p ∈ incompleteServer.procs,
      incompleteServer.handlers (p.2).name = none ∧
      (p.2).name ∉ incompleteServer.deliberately_unimplemented) ∧
    tcpServer_init incompleteServer "0.0.0.0" 2049 =
      .ok ⟨incompleteServer, "0.0.0.0", 2049⟩ := by
  refine ⟨⟨(1, ⟨"lookup", [], int32Codec⟩), ?_, rfl, ?_⟩, rfl⟩
  · simp [incompleteServer]
  · simp [incompleteServer]

/-- C8: for a declared procedure id, `handle_proc_call` decodes one argument
per declared codec from the call body in declaration order, invokes the
handler bound under the procedure's name exactly once with the decoded
arguments positionally (the invocation log is exactly one entry), and returns
the return codec's encoding of the handler's result; for an id absent from
the table it fails with the unknown-procedure error (`KeyError`). -/
theorem dispatch_correct_C8 (s : ServerDef) (proc_id : Nat) (call_body : List Nat)
    (proc : Proc) (argl : List XValue) (rest : List Nat)
    (f : List XValue → Except Unit XValue) (rv : XValue) :
    (alookup proc_id s.procs = some proc →
      unpackArgs proc.arg_types call_body = some (argl, rest) →
      s.handlers proc.name = some f →
      f argl = .ok rv →
      handle_proc_call s proc_id call_body =
        .ok (proc.ret_type.pack rv, [(proc.name, argl)])) ∧
    (alookup proc_id s.procs = none →
      handle_proc_call s proc_id call_body = .error .unknownProcedure) := by
  constructor
  · intro h1 h2 h3 h4
    simp [handle_proc_call, h1, h2, h3, h4]
  · intro h1
    simp [handle_proc_call, h1]

/-- The spec's dispatch example: procedure 7 with codecs `[int32, string]`
and a handler combining both arguments. -/
def demoProc : Proc := ⟨"demo", [int32Codec, rawCodec], int32Codec⟩

/-- Handler for `demoProc`: `f(a, bs) = a + len(bs)`. -/
def demoHandler (args : List XValue) : Except Unit XValue :=
  match args with
  | [.num a, .raw bs] => .ok (.num (a + bs.length))
  | _ => .error ()

/-- A complete server exposing `demoProc` under procedure id 7. -/
def demoServer : ServerDef :=
  ⟨100003, 3, [(7, demoProc)],
   fun name => if name = "demo" then some demoHandler else none, []⟩

/-- Witness for C8: `handleProcedureCall(7, encode(int32: 7) + encode("x"))`
invokes the handler once with `(7, "x")` and returns the encoded result;
procedure id 99 is absent and fails with the unknown-procedure error. -/
theorem dispatch_correct_C8_witness :
    handle_proc_call demoServer 7 (be32 7 ++ (be32 1 ++ pack_fstring 1 [120])) =
      .ok (demoProc.ret_type.pack (.num 8), [(demoProc.name, [.num 7, .raw [120]])]) ∧
    handle_proc_call demoServer 99 [] = .error .unknownProcedure := by
  constructor
  · exact (dispatch_correct_C8 demoServer 7 (be32 7 ++ (be32 1 ++ pack_fstring 1 [120]))
      demoProc [.num 7, .raw [120]] [] demoHandler (.num 8)).1
      rfl rfl rfl rfl
  · exact (dispatch_correct_C8 demoServer 99 [] demoProc [] [] demoHandler (.num 0)).2
      rfl

/-- C9: if dispatching one call fails with any exception — unknown procedure,
codec decode failure, or handler failure — the connection loop sends exactly
one reply, carrying that call's xid with acceptance status MSG_ACCEPTED and
detail status SYSTEM_ERR and an empty body, closes the transport, propagates
the failure, and processes none of the remaining messages (the output does
not depend on `rest`). -/
theorem dispatch_failure_C9 (s : ServerDef) (call : RpcMsg) (call_body : List Nat)
    (rest : List (RpcMsg × List Nat)) (e : RpcError)
    (hc : call.mtype = CALL)
    (hf : handle_proc_call s call.proc call_body = .error e) :
    handle_connection s ((call, call_body) :: rest) =
      ([(make_reply call.xid MSG_ACCEPTED SYSTEM_ERR, [])], true, .error e) := by
  simp [handle_connection, hc, handle_call, hf]

/-- Witness for C9: a CALL for the unimplemented procedure 1 of
`incompleteServer`, followed by another queued call that is never processed. -/
theorem dispatch_failure_C9_witness :
    handle_connection incompleteServer
        [(⟨21, .call 2 100003 3 1 nullAuth nullAuth⟩, []),
         (⟨22, .call 2 100003 3 1 nullAuth nullAuth⟩, [])] =
      ([(make_reply 21 MSG_ACCEPTED SYSTEM_ERR, [])], true,
        .error .attributeError) :=
  dispatch_failure_C9 incompleteServer ⟨21, .call 2 100003 3 1 nullAuth nullAuth⟩ []
    [(⟨22, .call 2 100003 3 1 nullAuth nullAuth⟩, [])] .attributeError
    rfl rfl

/-! ## Client correlation invariant (C10)

A small-step model of the state `send_call` and `pump_reply` share: the
pending table, the future counter (futures are numbered in creation order),
the calls written to the transport, and the resolutions performed. -/

theorem aerase_sublist (k : Nat) (d : List (Nat × α)) : (aerase k d).Sublist d := by
  induction d with
  | nil => simp [aerase]
  | cons p ps ih =>
    by_cases hp : p.1 = k
    · simp only [aerase, if_pos hp]
      exact List.sublist_cons_self p ps
    · simp only [aerase, if_neg hp]
      exact ih.cons₂ p

theorem mem_of_mem_aerase {k : Nat} {d : List (Nat × α)} {p : Nat × α}
    (h : p ∈ aerase k d) : p ∈ d :=
  (aerase_sublist k d).mem h

theorem mem_aerase_ne {k : Nat} {d : List (Nat × α)} {p : Nat × α}
    (hd : (keys d).Nodup) (h : p ∈ aerase k d) : p.1 ≠ k := by
  induction d with
  | nil => simp [aerase] at h
  | cons q qs ih =>
    simp only [keys, List.map_cons, List.nodup_cons] at hd
    by_cases hq : q.1 = k
    · simp only [aerase, if_pos hq] at h
      intro hpk
      apply hd.1
      rw [hq, ← hpk]
      exact List.mem_map_of_mem Prod.fst h
    · simp only [aerase, if_neg hq] at h
      rcases List.mem_cons.mp h with h1 | h1
      · rw [h1]; exact hq
      · exact ih (by simpa [keys] using hd.2) h1

theorem alookup_mem {k : Nat} {d : List (Nat × α)} {v : α}
    (h : alookup k d = some v) : (k, v) ∈ d := by
  induction d with
  | nil => simp [alookup] at h
  | cons p ps ih =>
    by_cases hp : p.1 = k
    · simp only [alookup, if_pos hp, Option.some.injEq] at h
      have he : (k, v) = p := by rw [← hp, ← h]
      rw [he]
      exact List.mem_cons_self p ps
    · simp only [alookup, if_neg hp] at h
      exact List.mem_cons_of_mem _ (ih h)

theorem exists_alookup_of_mem_keys {k : Nat} {d : List (Nat × α)}
    (h : k ∈ keys d) : ∃ v, alookup k d = some v := by
  induction d with
  | nil => simp [keys] at h
  | cons p ps ih =>
    by_cases hp : p.1 = k
    · exact ⟨p.2, by simp [alookup, hp]⟩
    · rcases (by simpa [keys] using h : k = p.1 ∨ k ∈ keys ps) with h1 | h2
      · exact absurd h1.symm hp
      · obtain ⟨v, hv⟩ := ih h2
        exact ⟨v, by simp [alookup, hp, hv]⟩

theorem not_mem_keys_of_alookup_none {k : Nat} {d : List (Nat × α)}
    (h : alookup k d = none) : k ∉ keys d := by
  intro hk
  obtain ⟨v, hv⟩ := exists_alookup_of_mem_keys hk
  rw [h] at hv
  cases hv

theorem alookup_append (k : Nat) (d e : List (Nat × α)) :
    alookup k (d ++ e) =
      match alookup k d with
      | some v => some v
      | none => alookup k e := by
  induction d with
  | nil => simp [alookup]
  | cons p ps ih =>
    by_cases hp : p.1 = k <;> simp [alookup, hp, ih]

theorem alookup_append_of_some {k : Nat} {d : List (Nat × α)} {v : α}
    (e : List (Nat × α)) (h : alookup k d = some v) :
    alookup k (d ++ e) = some v := by
  rw [alookup_append, h]

theorem alookup_append_none {k : Nat} {d e : List (Nat × α)}
    (h : alookup k (d ++ e) = none) :
    alookup k d = none ∧ alookup k e = none := by
  rw [alookup_append] at h
  rcases hd : alookup k d with _ | v
  · rw [hd] at h; exact ⟨rfl, h⟩
  · rw [hd] at h; cases h

theorem dictSet_of_not_mem {k : Nat} (v : α) {d : List (Nat × α)}
    (h : k ∉ keys d) : dictSet k v d = d ++ [(k, v)] := by
  induction d with
  | nil => simp [dictSet]
  | cons p ps ih =>
    simp only [keys, List.map_cons, List.mem_cons, not_or] at h
    simp only [dictSet, if_neg (Ne.symm h.1), List.cons_append, List.cons.injEq, true_and]
    exact ih (by simpa [keys] using h.2)

/-- Characterization of `pump_reply` when it resolves nothing: the pending
table is returned unchanged. -/
theorem pump_reply_none {m : List (Nat × Nat)} {msg : RpcMsg} {body : List Nat}
    {d : List (Nat × Nat)} (h : pump_reply m (msg, body) = (d, none)) : d = m := by
  by_cases hm : msg.mtype ≠ REPLY
  · simp only [pump_reply, if_pos hm, Prod.mk.injEq] at h
    exact h.1.symm
  · rcases hl : alookup msg.xid m with _ | fut
    · simp only [pump_reply, if_neg hm, dictPop, hl, Prod.mk.injEq] at h
      exact h.1.symm
    · simp [pump_reply, if_neg hm, dictPop, hl] at h
  
/-- Characterization of `pump_reply` when it resolves a future: the message
was a REPLY, its xid's entry (holding that future) was popped — removed
before the resolution — and the future is resolved with the message. -/
theorem pump_reply_some {m : List (Nat × Nat)} {msg : RpcMsg} {body : List Nat}
    {d : List (Nat × Nat)} {r : Nat × FutResult}
    (h : pump_reply m (msg, body) = (d, some r)) :
    alookup msg.xid m = some r.1 ∧ d = aerase msg.xid m ∧
      r.2 = .reply msg body := by
  by_cases hm : msg.mtype ≠ REPLY
  · simp [pump_reply, if_pos hm] at h
  · rcases hl : alookup msg.xid m with _ | fut
    · simp [pump_reply, if_neg hm, dictPop, hl] at h
    · simp only [pump_reply, if_neg hm, dictPop, hl, if_false, Prod.mk.injEq,
        Option.some.injEq] at h
      obtain ⟨h1, h2⟩ := h
      subst h2
      exact ⟨rfl, h1.symm, rfl⟩

/-- The client's observable correlation state. -/
structure CState where
  xid_map : List (Nat × Nat)
  nextFut : Nat
  written : List (Nat × Nat)
  resolved : List (Nat × FutResult)

/-- Python `BaseClient.__init__`: `self.xid_map = {}` (no futures yet, nothing
written, nothing resolved). -/
def init_client_state : CState := ⟨[], 0, [], []⟩

/-- The two activities that touch this state, each ordered as the source
orders it:
* `send xid`: the prefix of `send_call` up to its first suspension — create
  the future, insert it (`self.xid_map[xid] = fut`), and only then hand the
  framed call to the transport (`await self.transport.write_msg(...)`), so
  registration precedes the write;
* `pump msg body`: `pump_reply` on one incoming message — pop first, then
  resolve the popped future. -/
inductive CEvent where
  | send (xid : Nat)
  | pump (msg : RpcMsg) (body : List Nat)

/-- One step of client execution. -/
def cstep (st : CState) : CEvent → CState
  | .send xid =>
    { st with
      xid_map := dictSet xid st.nextFut st.xid_map
      nextFut := st.nextFut + 1
      written := st.written ++ [(st.nextFut, xid)] }
  | .pump msg body =>
    match pump_reply st.xid_map (msg, body) with
    | (d, none) => { st with xid_map := d }
    | (d, some r) => { st with xid_map := d, resolved := st.resolved ++ [r] }

/-- The client-side correlation invariant of the claim: pending xids are
pairwise distinct; pending futures are pairwise distinct, unresolved, and
allocated; resolutions are at most one per future; and every written,
not-yet-resolved call has exactly one pending entry, under its xid, holding
its future. -/
def ClientInv (st : CState) : Prop :=
  (keys st.xid_map).Nodup ∧
  (st.xid_map.map Prod.snd).Nodup ∧
  (∀ p ∈ st.xid_map, p.2 < st.nextFut) ∧
  (∀ p ∈ st.xid_map, alookup p.2 st.resolved = none) ∧
  (keys st.resolved).Nodup ∧
  (∀ r ∈ st.resolved, r.1 < st.nextFut) ∧
  (∀ w ∈ st.written, w.1 < st.nextFut) ∧
  (∀ w ∈ st.written, alookup w.1 st.resolved = none →
    alookup w.2 st.xid_map = some w.1)

/-- C10: the client-side correlation invariant holds at construction and is
preserved by every step — `send_call` inserts the pending future before the
framed call is written (one atomic segment before its first suspension), and
`pump_reply` removes the entry before resolving it — so at every suspension
point each written, not-yet-resolved call has exactly one pending-table entry
under its transaction id, and each pending call is resolved at most once.
A send step's xid is one not currently pending (caller-supplied or generated
ids are unique among outstanding calls, the C2 invariant). -/
theorem client_pending_inv_C10 (st : CState) (ev : CEvent)
    (hinv : ClientInv st)
    (hfresh : ∀ xid, ev = .send xid → alookup xid st.xid_map = none) :
    ClientInv (cstep st ev) ∧ ClientInv init_client_state := by
  obtain ⟨hk, hv, hlt, hunres, hrk, hrlt, hwlt, hwreg⟩ := hinv
  refine ⟨?_, by simp [ClientInv, init_client_state, keys, alookup]⟩
  cases ev with
  | send xid =>
    have hfr : alookup xid st.xid_map = none := hfresh xid rfl
    have hkmem : xid ∉ keys st.xid_map := not_mem_keys_of_alookup_none hfr
    have hds : dictSet xid st.nextFut st.xid_map =
        st.xid_map ++ [(xid, st.nextFut)] := dictSet_of_not_mem _ hkmem
    simp only [cstep, hds]
    refine ⟨?_, ?_, ?_, ?_, hrk, ?_, ?_, ?_⟩
    · show (keys (st.xid_map ++ [(xid, st.nextFut)])).Nodup
      simp only [keys, List.map_append, List.map_cons, List.map_nil]
      refine List.Nodup.append hk (List.nodup_singleton _) ?_
      intro a ha hb
      rw [List.mem_singleton] at hb
      subst hb
      exact hkmem ha
    · show ((st.xid_map ++ [(xid, st.nextFut)]).map Prod.snd).Nodup
      simp only [List.map_append, List.map_cons, List.map_nil]
      refine List.Nodup.append hv (List.nodup_singleton _) ?_
      intro a ha hb
      rw [List.mem_singleton] at hb
      subst hb
      obtain ⟨p, hpmem, hpeq⟩ := List.mem_map.mp ha
      have := hlt p hpmem
      omega
    · intro p hp
      rcases List.mem_append.mp hp with h | h
      · exact Nat.lt_succ_of_lt (hlt p h)
      · rw [List.mem_singleton] at h
        subst h
        exact Nat.lt_succ_self _
    · intro p hp
      rcases List.mem_append.mp hp with h | h
      · exact hunres p h
      · rw [List.mem_singleton] at h
        subst h
        rcases hr : alookup (xid, st.nextFut).2 st.resolved with _ | v
        · rfl
        · have := hrlt _ (alookup_mem hr)
          omega
    · intro q hq
      exact Nat.lt_succ_of_lt (hrlt q hq)
    · intro w hw
      rcases List.mem_append.mp hw with h | h
      · exact Nat.lt_succ_of_lt (hwlt w h)
      · rw [List.mem_singleton] at h
        subst h
        exact Nat.lt_succ_self _
    · intro w hw pr
      rcases List.mem_append.mp hw with h | h
      · exact alookup_append_of_some _ (hwreg w h pr)
      · rw [List.mem_singleton] at h
        subst h
        rw [alookup_append, hfr]
        simp [alookup]
  | pump msg body =>
    rcases hp : pump_reply st.xid_map (msg, body) with ⟨d, ro⟩
    cases ro with
    | none =>
      have hd := pump_reply_none hp
      subst hd
      simp only [cstep, hp]
      exact ⟨hk, hv, hlt, hunres, hrk, hrlt, hwlt, hwreg⟩
    | some r =>
      obtain ⟨hlk, hdq, hres⟩ := pump_reply_some hp
      subst hdq
      simp only [cstep, hp]
      have pmem : (msg.xid, r.1) ∈ st.xid_map := alookup_mem hlk
      have hfut_lt : r.1 < st.nextFut := hlt _ pmem
      have hfut_unres : alookup r.1 st.resolved = none := hunres _ pmem
      refine ⟨?_, ?_, ?_, ?_, ?_, ?_, hwlt, ?_⟩
      · exact hk.sublist ((aerase_sublist msg.xid st.xid_map).map Prod.fst)
      · exact hv.sublist ((aerase_sublist msg.xid st.xid_map).map Prod.snd)
      · intro p hpm
        exact hlt p (mem_of_mem_aerase hpm)
      · intro p hpm
        have hpd : p ∈ st.xid_map := mem_of_mem_aerase hpm
        have hne : p.1 ≠ msg.xid := mem_aerase_ne hk hpm
        have hsne : p.2 ≠ r.1 := by
          intro he
          have := List.inj_on_of_nodup_map hv hpd pmem he
          exact hne (by rw [this])
        rw [alookup_append, hunres p hpd]
        simp [alookup, Ne.symm hsne]
      · show (keys (st.resolved ++ [r])).Nodup
        simp only [keys, List.map_append, List.map_cons, List.map_nil]
        refine List.Nodup.append hrk (List.nodup_singleton _) ?_
        intro a ha hb
        rw [List.mem_singleton] at hb
        subst hb
        obtain ⟨v, hva⟩ := exists_alookup_of_mem_keys ha
        rw [hfut_unres] at hva
        cases hva
      · intro q hq
        rcases List.mem_append.mp hq with h | h
        · exact hrlt q h
        · rw [List.mem_singleton] at h
          subst h
          exact hfut_lt
      · intro w hw pr
        obtain ⟨pr1, pr2⟩ := alookup_append_none pr
        have hwne : w.1 ≠ r.1 := by
          intro he
          rw [show ([r] : List (Nat × FutResult)) = [(r.1, r.2)] from rfl] at pr2
          simp [alookup, he] at pr2
        have hreg := hwreg w hw pr1
        have hxne : w.2 ≠ msg.xid := by
          intro he
          rw [he, hlk] at hreg
          exact hwne (Option.some.inj hreg).symm
        rw [alookup_aerase_ne _ _ _ hxne]
        exact hreg

/-- Witness for C10: one step of each kind from a concrete reachable state
(one written pending call, xid 3 held by future 0): a fresh send (xid 4) and
a pump of the matching reply, plus the initial state. -/
theorem client_pending_inv_C10_witness :
    ClientInv (cstep ⟨[(3, 0)], 1, [(0, 3)], []⟩ (.send 4)) ∧
      ClientInv init_client_state := by
  refine client_pending_inv_C10 ⟨[(3, 0)], 1, [(0, 3)], []⟩ (.send 4) ?_ ?_
  · unfold ClientInv
    refine ⟨?_, ?_, ?_, ?_, ?_, ?_, ?_, ?_⟩ <;> decide
  · intro xid h
    cases h
    rfl

end PyNefs
